import Mathlib

/-!
Verification of the MiniScript tokenizer (src/lexer.rs) and expression
parser (src/parser.rs).  The Rust code is shallowly embedded: source text
is a `List Char`, the token stream is a `List Token`, and the numeric
payload of a number token (`f64` in the source) is modelled as the exact
rational value denoted by the accumulated literal text — every literal
examined in the theorems below has a value on which `f64` arithmetic is
exact, so the rational model is faithful there.  Rust `String` lengths
(`str::len`, a byte count) are modelled as character counts; the two agree
on ASCII text, and all inputs considered below are ASCII.
-/

/-- Token kinds, mirroring `enum TokenKind` in src/lexer.rs.  The
`NumLiteralData { value, str_len }` payload struct is flattened into two
constructor arguments. -/
inductive TokenKind
  | Identifier (s : List Char)
  | StrLiteral (s : List Char)
  | NumLiteral (value : ℚ) (str_len : ℕ)
  | TypeofKeyword
  | SingleEqual
  | SemiColon
  | Dot
  | Comma
  | DoubleEqual
  | ExclEqual
  | LessThan
  | LessThanEq
  | GreaterThan
  | GreaterThanEq
  | Plus
  | Minus
  | Asterisk
  | Slash
  | Percent
  | LeftParen
  | RightParen
  | LeftCurly
  | RightCurly
  | LeftBracket
  | RightBracket
  | Exclamation
  | DoubleAnd
  | DoublePipe
  deriving DecidableEq, Repr

/-- `TokenKind::get_str_len` from src/lexer.rs: the recorded source length
of a token, used to advance the column cursor. -/
def TokenKind.get_str_len : TokenKind → ℕ
  | .StrLiteral s => s.length
  | .Identifier id => id.length
  | .NumLiteral _ n => n
  | .SingleEqual | .SemiColon | .LessThan | .GreaterThan | .Plus | .Minus
  | .Asterisk | .Slash | .Percent | .LeftParen | .RightParen | .LeftCurly
  | .Dot | .RightCurly | .LeftBracket | .RightBracket | .Exclamation | .Comma => 1
  | .DoubleEqual | .ExclEqual | .LessThanEq | .GreaterThanEq | .DoubleAnd | .DoublePipe => 2
  | .TypeofKeyword => 6

/-- `struct Token` from src/lexer.rs. -/
structure Token where
  kind : TokenKind
  line : ℕ
  column : ℕ
  deriving DecidableEq, Repr

/-- Rust `char::to_digit(radix)`: `0`-`9` map to their value, letters map
to `10 + position in alphabet` (either case); defined only when the result
is below the radix. -/
def to_digit (c : Char) (radix : ℕ) : Option ℕ :=
  (if '0' ≤ c ∧ c ≤ '9' then some (c.toNat - 48)
   else if 'a' ≤ c ∧ c ≤ 'z' then some (c.toNat - 97 + 10)
   else if 'A' ≤ c ∧ c ≤ 'Z' then some (c.toNat - 65 + 10)
   else none).filter (· < radix)

/-- Rust `char::is_digit(radix)`. -/
def char_is_digit (c : Char) (radix : ℕ) : Bool :=
  (to_digit c radix).isSome

/-- `read_numchars` from src/lexer.rs: the `next_if(is_ascii_digit)` loop
consumes the maximal prefix of decimal digits; returns the digits read and
the remaining input. -/
def read_numchars (l : List Char) : List Char × List Char :=
  (l.takeWhile Char.isDigit, l.dropWhile Char.isDigit)

/-- Value of a list of decimal digits, accumulated left to right. -/
def decDigitsVal (ds : List Char) : ℕ :=
  ds.foldl (fun a c => a * 10 + (c.toNat - 48)) 0

/-- The digit loop of `parse_int_with_prefix` in src/lexer.rs: while the
next character is a digit of `radix`, multiply the accumulated value by
the radix, add the digit, and bump the length counter.  The source
accumulates in `f64`; since the accumulated value is always a natural
number (on which `f64` arithmetic is exact in the range of every literal
considered here), the accumulator is modelled in `ℕ` and cast to the
token's rational payload by the caller. -/
def intWithPrefixLoop (radix : ℕ) : List Char → ℕ → ℕ → ℕ × ℕ × List Char
  | [], val, len => (val, len, [])
  | c :: rest, val, len =>
    if char_is_digit c radix then
      intWithPrefixLoop radix rest (val * radix + (to_digit c radix).getD 0) (len + 1)
    else (val, len, c :: rest)

/-- `parse_int_with_prefix` from src/lexer.rs.  On entry the prefix letter
(`x`/`o`/`b`) is still at the front of the stream; the guard peeks at the
character after it (`chars.clone().nth(1)`) and requires a decimal digit
`0`-`9`, otherwise it returns value `0` with length `1` without consuming
the prefix.  On success the prefix is consumed and the radix-digit run is
accumulated. -/
def parse_int_with_prefix (chars : List Char) (len_init : ℕ) (radix : ℕ) :
    TokenKind × List Char :=
  match chars[1]? with
  | some c =>
    if '0' ≤ c ∧ c ≤ '9' then
      let r := intWithPrefixLoop radix chars.tail 0 len_init
      (.NumLiteral (r.1 : ℚ) r.2.1, r.2.2)
    else (.NumLiteral 0 1, chars)
  | none => (.NumLiteral 0 1, chars)

/-- Model of Rust `<f64 as FromStr>::from_str` on the literal texts the
lexer builds (digits, optionally `.` digits, optionally `e` digits; no
sign), returning the exact rational value of the text, or `none` when the
text is not of that shape. -/
def ratOfDecimal (text : List Char) : Option ℚ :=
  match read_numchars text with
  | (ip, r1) =>
    if ip = [] then none else
    match r1 with
    | [] => some (decDigitsVal ip)
    | '.' :: r2 =>
      match read_numchars r2 with
      | (fp, r3) =>
        if fp = [] then none else
        let base : ℚ := (decDigitsVal ip : ℚ) + (decDigitsVal fp : ℚ) / (10 : ℚ) ^ fp.length
        match r3 with
        | [] => some base
        | 'e' :: r4 =>
          match read_numchars r4 with
          | (ep, r5) =>
            if ep = [] ∨ r5 ≠ [] then none
            else some (base * (10 : ℚ) ^ decDigitsVal ep)
        | _ => none
    | 'e' :: r4 =>
      match read_numchars r4 with
      | (ep, r5) =>
        if ep = [] ∨ r5 ≠ [] then none
        else some ((decDigitsVal ip * 10 ^ decDigitsVal ep : ℕ) : ℚ)
    | _ => none

/-- `TokenKind::try_into_float` from src/lexer.rs: parse the accumulated
text as a number and record the text's length as the token's source
length. -/
def try_into_float (value : List Char) : Option TokenKind :=
  (ratOfDecimal value).map (fun n => .NumLiteral n value.length)

/-- `parse_number_starting_with_0` from src/lexer.rs.  The leading `0` has
already been consumed; the stream starts at the character after it.
Returns the token and the remaining input, or `none` for a float-parse
error. -/
def parse_number_starting_with_0 (chars : List Char) : Option (TokenKind × List Char) :=
  match chars.head? with
  | some 'x' => some ( parse_int_with_prefix chars 2 16)
  | some 'o' => some ( parse_int_with_prefix chars 2 8)
  | some 'b' => some ( parse_int_with_prefix chars 2 2)
  | some '.' =>
    match chars[1]? with
    | some c =>
      if '0' ≤ c ∧ c ≤ '9' then
        match read_numchars chars.tail with
        | (ds, r1) =>
          match r1 with
          | 'e' :: r2 =>
            match r2.head? with
            | some d =>
              if '1' ≤ d ∧ d ≤ '9' then
                match read_numchars r2 with
                | (es, r3) =>
                  (try_into_float ('0' :: '.' :: ds ++ 'e' :: es)).map (fun k => (k, r3))
              else (try_into_float ('0' :: '.' :: ds)).map (fun k => (k, r1))
            | none => (try_into_float ('0' :: '.' :: ds)).map (fun k => (k, r1))
          | _ => (try_into_float ('0' :: '.' :: ds)).map (fun k => (k, r1))
      else some (.NumLiteral 0 1, chars)
    | none => some (.NumLiteral 0 1, chars)
  | _ => some (.NumLiteral 0 1, chars)

/-- The `'1'..='9'` arm of the main loop in src/lexer.rs (lines 186-203):
read the maximal decimal-digit run, optionally a fraction (`.` only
consumed when followed by a digit `0`-`9`), optionally an exponent (`e`
only consumed when followed by a digit `1`-`9`), then parse the text as a
float.  `none` models the `.expect` panic on an unparsable text (never
reached on texts of this shape). -/
def lexNumNonzero (c : Char) (input : List Char) : Option (TokenKind × List Char) :=
  match read_numchars input with
  | (ds, r1) =>
    let text1 := c :: ds
    let fr : List Char × List Char :=
      match r1 with
      | '.' :: rest =>
        match rest.head? with
        | some d =>
          if '0' ≤ d ∧ d ≤ '9' then
            match read_numchars rest with
            | (fs, r) => (text1 ++ '.' :: fs, r)
          else (text1, r1)
        | none => (text1, r1)
      | _ => (text1, r1)
    let er : List Char × List Char :=
      match fr.2 with
      | 'e' :: rest =>
        match rest.head? with
        | some d =>
          if '1' ≤ d ∧ d ≤ '9' then
            match read_numchars rest with
            | (es, r) => (fr.1 ++ 'e' :: es, r)
          else fr
        | none => fr
      | _ => fr
    (try_into_float er.1).map (fun k => (k, er.2))

/-- Result of the string-literal scan of src/lexer.rs lines 207-220: the
body characters read (escape pairs kept verbatim) and the rest of the
input, or one of the two error outcomes.  Note that exhausting the input
without a closing quote falls out of the loop and is an `ok` outcome in
the source. -/
inductive StrScan
  | ok (body : List Char) (rest : List Char)
  | badEscape
  | newline
  deriving DecidableEq, Repr

/-- The string-literal scanning loop from src/lexer.rs (the opening quote
is already consumed). -/
def scanStr : List Char → StrScan
  | [] => .ok [] []
  | ['\\'] => .badEscape
  | '\\' :: e :: rest =>
    if e = 'n' ∨ e = 't' ∨ e = 'r' ∨ e = '\\' ∨ e = '"' then
      match scanStr rest with
      | .ok t r => .ok ('\\' :: e :: t) r
      | s => s
    else .badEscape
  | '\n' :: _ => .newline
  | '"' :: rest => .ok [] rest
  | c :: rest =>
    match scanStr rest with
    | .ok t r => .ok (c :: t) r
    | s => s

/-- `LexerErrorKind` from src/lexer.rs. -/
inductive LexerErrorKind
  | InvalidFloatLiteral
  | InvalidStringEscapeSequence
  | UnterminatedStringLiteral
  | InvalidCharacter (c : Char)
  deriving DecidableEq, Repr

/-- Outcome of `parse` in src/lexer.rs.  `err` carries the `ParseState`
(tokens built so far, line, column) together with the error kind, as
`LexerError` does.  `panicked` models the `.expect` on line 203;
`fuelOut` is an artifact of the fuel-indexed embedding and is never
produced when the fuel exceeds the input length. -/
inductive LexResult
  | ok (tokens : List Token)
  | err (tokens : List Token) (line : ℕ) (column : ℕ) (kind : LexerErrorKind)
  | panicked
  | fuelOut
  deriving DecidableEq, Repr

/-- Rust `'a'..='z' | 'A'..='Z' | '_' | '0'..='9'`: identifier
continuation characters. -/
def isIdentCont (c : Char) : Bool :=
  c.isAlpha || c = '_' || c.isDigit

/-- The main tokenizer loop of `parse` in src/lexer.rs, one iteration per
outer `input.next()`.  `fuel` bounds the number of iterations; each
iteration consumes at least the one character popped by the outer `next`,
so `input.length + 1` fuel always suffices. -/
def lexLoop : ℕ → List Char → ℕ → ℕ → List Token → LexResult
  | 0, _, _, _, _ => .fuelOut
  | _ + 1, [], _, _, toks => .ok toks
  | fuel + 1, c :: input, line, col, toks =>
    if c = '0' then
      match parse_number_starting_with_0 input with
      | some (k, rest) =>
        lexLoop fuel rest line (col + k.get_str_len) (toks ++ [⟨k, line, col⟩])
      | none => .err toks line col .InvalidFloatLiteral
    else if '1' ≤ c ∧ c ≤ '9' then
      match lexNumNonzero c input with
      | some (k, rest) =>
        lexLoop fuel rest line (col + k.get_str_len) (toks ++ [⟨k, line, col⟩])
      | none => .panicked
    else if c = '"' then
      match scanStr input with
      | .ok body rest =>
        let k : TokenKind := .StrLiteral ('"' :: body ++ ['"'])
        lexLoop fuel rest line (col + k.get_str_len) (toks ++ [⟨k, line, col⟩])
      | .badEscape => .err toks line col .InvalidStringEscapeSequence
      | .newline => .err toks line col .UnterminatedStringLiteral
    else if c.isAlpha || c = '_' then
      let text := c :: input.takeWhile isIdentCont
      let rest := input.dropWhile isIdentCont
      let k : TokenKind :=
        if text = "typeof".toList then .TypeofKeyword else .Identifier text
      lexLoop fuel rest line (col + k.get_str_len) (toks ++ [⟨k, line, col⟩])
    else if c = '=' then
      match input with
      | '=' :: rest => lexLoop fuel rest line (col + 2) (toks ++ [⟨.DoubleEqual, line, col⟩])
      | _ => lexLoop fuel input line (col + 1) (toks ++ [⟨.SingleEqual, line, col⟩])
    else if c = '!' then
      match input with
      | '=' :: rest => lexLoop fuel rest line (col + 2) (toks ++ [⟨.ExclEqual, line, col⟩])
      | _ => lexLoop fuel input line (col + 1) (toks ++ [⟨.Exclamation, line, col⟩])
    else if c = '<' then
      match input with
      | '=' :: rest => lexLoop fuel rest line (col + 2) (toks ++ [⟨.LessThanEq, line, col⟩])
      | _ => lexLoop fuel input line (col + 1) (toks ++ [⟨.LessThan, line, col⟩])
    else if c = '>' then
      match input with
      | '=' :: rest => lexLoop fuel rest line (col + 2) (toks ++ [⟨.GreaterThanEq, line, col⟩])
      | _ => lexLoop fuel input line (col + 1) (toks ++ [⟨.GreaterThan, line, col⟩])
    else if c = '\n' then
      lexLoop fuel input (line + 1) 1 toks
    else if c = '+' then lexLoop fuel input line (col + 1) (toks ++ [⟨.Plus, line, col⟩])
    else if c = '-' then lexLoop fuel input line (col + 1) (toks ++ [⟨.Minus, line, col⟩])
    else if c = '*' then lexLoop fuel input line (col + 1) (toks ++ [⟨.Asterisk, line, col⟩])
    else if c = '/' then lexLoop fuel input line (col + 1) (toks ++ [⟨.Slash, line, col⟩])
    else if c = '%' then lexLoop fuel input line (col + 1) (toks ++ [⟨.Percent, line, col⟩])
    else if c = ';' then lexLoop fuel input line (col + 1) (toks ++ [⟨.SemiColon, line, col⟩])
    else if c = '.' then lexLoop fuel input line (col + 1) (toks ++ [⟨.Dot, line, col⟩])
    else if c = ',' then lexLoop fuel input line (col + 1) (toks ++ [⟨.Comma, line, col⟩])
    else if c = '(' then lexLoop fuel input line (col + 1) (toks ++ [⟨.LeftParen, line, col⟩])
    else if c = ')' then lexLoop fuel input line (col + 1) (toks ++ [⟨.RightParen, line, col⟩])
    else if c = '{' then lexLoop fuel input line (col + 1) (toks ++ [⟨.LeftCurly, line, col⟩])
    else if c = '}' then lexLoop fuel input line (col + 1) (toks ++ [⟨.RightCurly, line, col⟩])
    else if c = '[' then lexLoop fuel input line (col + 1) (toks ++ [⟨.LeftBracket, line, col⟩])
    else if c = ']' then lexLoop fuel input line (col + 1) (toks ++ [⟨.RightBracket, line, col⟩])
    else if c = ' ' ∨ c = '\t' then lexLoop fuel input line (col + 1) toks
    else if c = '\r' then lexLoop fuel input line col toks
    else if c = '&' then
      match input with
      | '&' :: rest2 =>
        lexLoop fuel rest2.tail line (col + 2) (toks ++ [⟨.DoublePipe, line, col⟩])
      | _ => .err toks line col (.InvalidCharacter c)
    else if c = '|' then
      match input with
      | '|' :: rest2 =>
        lexLoop fuel rest2.tail line (col + 2) (toks ++ [⟨.DoubleAnd, line, col⟩])
      | _ => .err toks line col (.InvalidCharacter c)
    else .err toks line col (.InvalidCharacter c)

/-- `parse` from src/lexer.rs: tokenize a whole input, starting at line 1,
column 1, with an empty token list. -/
def parse (input : List Char) : LexResult :=
  lexLoop (input.length + 1) input 1 1 []


/-- `enum Expression` from src/parser.rs (boxed children flattened). -/
inductive Expression
  | StringValue (s : List Char)
  | NumberValue (n : ℚ)
  | Variable (s : List Char)
  | MemberAccess (l r : Expression)
  | FunctionCall (callee : Expression) (args : List Expression)
  | LogicalNot (e : Expression)
  | UnaryNegation (e : Expression)
  | Typeof (e : Expression)
  | Multiplication (l r : Expression)
  | Division (l r : Expression)
  | Remainder (l r : Expression)
  | Addition (l r : Expression)
  | Subtraction (l r : Expression)
  | LessThan (l r : Expression)
  | LessThanEq (l r : Expression)
  | GreaterThan (l r : Expression)
  | GreaterThanEq (l r : Expression)
  | Equality (l r : Expression)
  | Inequality (l r : Expression)
  | LogicalAnd (l r : Expression)
  | LogicalOr (l r : Expression)
  | Assignment (l r : Expression)

/-- The syntax-error messages produced by src/parser.rs, one constructor
per `format!` template (the unexpected token kind is the payload). -/
inductive ParseErr
  | ExpectedRParenButFound (k : TokenKind)
  | ExpectedPrimaryButFound (k : TokenKind)
  | ExpectedCommaOrRParenButFound (k : TokenKind)
  | UnexpectedEndOfInput
  deriving DecidableEq, Repr

/-- Outcome of a parser function.  `ok` carries the expression and the
tokens left in the deque; `error` carries the message and the deque as
mutated up to the failure point (the Rust functions mutate the deque in
place, so a caller that keeps going after an inner `Err` — as
`parse_value_expr`'s grouping arm does — sees the partially consumed
deque).  `panicked` models the `pop_front().unwrap()` on an empty deque in
`parse_value_expr`; `fuelOut` is an artifact of the fuel-indexed embedding
and is never produced when the fuel is large enough. -/
inductive PResult
  | ok (e : Expression) (rest : List Token)
  | error (err : ParseErr) (rest : List Token)
  | panicked
  | fuelOut

mutual

/-- `parse_value_expr` from src/parser.rs.  Note the grouping arm: the
inner `parse_expression` result is stored *without* `?`, the next token is
then popped unconditionally (`unwrap` — a panic on an empty deque) and
checked against `)` before the stored result is returned. -/
def parse_value_expr : ℕ → List Token → PResult
  | 0, _ => .fuelOut
  | f + 1, ts =>
    match ts with
    | [] => .error .UnexpectedEndOfInput []
    | t :: rest =>
      match t.kind with
      | .StrLiteral v => .ok (.StringValue v) rest
      | .NumLiteral v _ => .ok (.NumberValue v) rest
      | .Identifier v => .ok (.Variable v) rest
      | .LeftParen =>
        match parse_assignment f rest with
        | .ok e rest2 =>
          match rest2 with
          | [] => .panicked
          | t2 :: rest3 =>
            if t2.kind = .RightParen then .ok e rest3
            else .error (.ExpectedRParenButFound t2.kind) rest3
        | .error er rest2 =>
          match rest2 with
          | [] => .panicked
          | t2 :: rest3 =>
            if t2.kind = .RightParen then .error er rest3
            else .error (.ExpectedRParenButFound t2.kind) rest3
        | r => r
      | k => .error (.ExpectedPrimaryButFound k) rest

/-- The call-argument loop of `parse_primary` in src/parser.rs (lines
100-119): zero or more comma-separated expressions; `)` pops and ends the
list; a comma after an argument is popped; a non-comma, non-`)` token
after an argument is an error; an empty deque after an argument is an
unexpected-end-of-input error; an empty deque at the loop head simply ends
the list. -/
def argsLoop : ℕ → List Expression → List Token → (List Expression × List Token) ⊕ PResult
  | 0, _, _ => .inr .fuelOut
  | f + 1, args, ts =>
    match ts with
    | [] => .inl (args, [])
    | t :: rest =>
      if t.kind = .RightParen then .inl (args, rest)
      else
        match parse_assignment f ts with
        | .ok e rest2 =>
          match rest2 with
          | [] => .inr (.error .UnexpectedEndOfInput [])
          | t2 :: rest3 =>
            if t2.kind = .Comma then argsLoop f (args ++ [e]) rest3
            else if t2.kind = .RightParen then argsLoop f (args ++ [e]) rest2
            else .inr (.error (.ExpectedCommaOrRParenButFound t2.kind) rest2)
        | r => .inr r

/-- The postfix loop of `parse_primary` in src/parser.rs: apply `.` member
accesses and `(` call argument lists left to right until the lookahead
matches neither. -/
def primaryLoop : ℕ → Expression → List Token → PResult
  | 0, _, _ => .fuelOut
  | f + 1, expr, ts =>
    match ts with
    | [] => .ok expr []
    | t :: rest =>
      match t.kind with
      | .Dot =>
        match parse_value_expr f rest with
        | .ok v rest2 => primaryLoop f (.MemberAccess expr v) rest2
        | r => r
      | .LeftParen =>
        match argsLoop f [] rest with
        | .inl (args, rest2) => primaryLoop f (.FunctionCall expr args) rest2
        | .inr r => r
      | _ => .ok expr ts

/-- `parse_primary` from src/parser.rs. -/
def parse_primary : ℕ → List Token → PResult
  | 0, _ => .fuelOut
  | f + 1, ts =>
    match parse_value_expr f ts with
    | .ok e rest => primaryLoop f e rest
    | r => r

/-- `parse_unary` from src/parser.rs: `!`, `typeof` and unary `-` recurse
into `parse_unary` itself; anything else falls through to
`parse_primary`. -/
def parse_unary : ℕ → List Token → PResult
  | 0, _ => .fuelOut
  | f + 1, ts =>
    match ts with
    | t :: rest =>
      match t.kind with
      | .Exclamation =>
        match parse_unary f rest with
        | .ok e rest2 => .ok (.LogicalNot e) rest2
        | r => r
      | .TypeofKeyword =>
        match parse_unary f rest with
        | .ok e rest2 => .ok (.Typeof e) rest2
        | r => r
      | .Minus =>
        match parse_unary f rest with
        | .ok e rest2 => .ok (.UnaryNegation e) rest2
        | r => r
      | _ => parse_primary f ts
    | [] => parse_primary f ts

/-- The operator loop of `parse_muldiv` in src/parser.rs. -/
def muldivLoop : ℕ → Expression → List Token → PResult
  | 0, _, _ => .fuelOut
  | f + 1, left, ts =>
    match ts with
    | t :: rest =>
      match t.kind with
      | .Asterisk =>
        match parse_unary f rest with
        | .ok right rest2 => muldivLoop f (.Multiplication left right) rest2
        | r => r
      | .Slash =>
        match parse_unary f rest with
        | .ok right rest2 => muldivLoop f (.Division left right) rest2
        | r => r
      | .Percent =>
        match parse_unary f rest with
        | .ok right rest2 => muldivLoop f (.Remainder left right) rest2
        | r => r
      | _ => .ok left ts
    | [] => .ok left []

/-- `parse_muldiv` from src/parser.rs. -/
def parse_muldiv : ℕ → List Token → PResult
  | 0, _ => .fuelOut
  | f + 1, ts =>
    match parse_unary f ts with
    | .ok left rest => muldivLoop f left rest
    | r => r

/-- The operator loop of `parse_addsub` in src/parser.rs. -/
def addsubLoop : ℕ → Expression → List Token → PResult
  | 0, _, _ => .fuelOut
  | f + 1, left, ts =>
    match ts with
    | t :: rest =>
      match t.kind with
      | .Plus =>
        match parse_muldiv f rest with
        | .ok right rest2 => addsubLoop f (.Addition left right) rest2
        | r => r
      | .Minus =>
        match parse_muldiv f rest with
        | .ok right rest2 => addsubLoop f (.Subtraction left right) rest2
        | r => r
      | _ => .ok left ts
    | [] => .ok left []

/-- `parse_addsub` from src/parser.rs. -/
def parse_addsub : ℕ → List Token → PResult
  | 0, _ => .fuelOut
  | f + 1, ts =>
    match parse_muldiv f ts with
    | .ok left rest => addsubLoop f left rest
    | r => r

/-- The operator loop of `parse_relational` in src/parser.rs. -/
def relationalLoop : ℕ → Expression → List Token → PResult
  | 0, _, _ => .fuelOut
  | f + 1, left, ts =>
    match ts with
    | t :: rest =>
      match t.kind with
      | .LessThan =>
        match parse_addsub f rest with
        | .ok right rest2 => relationalLoop f (.LessThan left right) rest2
        | r => r
      | .LessThanEq =>
        match parse_addsub f rest with
        | .ok right rest2 => relationalLoop f (.LessThanEq left right) rest2
        | r => r
      | .GreaterThan =>
        match parse_addsub f rest with
        | .ok right rest2 => relationalLoop f (.GreaterThan left right) rest2
        | r => r
      | .GreaterThanEq =>
        match parse_addsub f rest with
        | .ok right rest2 => relationalLoop f (.GreaterThanEq left right) rest2
        | r => r
      | _ => .ok left ts
    | [] => .ok left []

/-- `parse_relational` from src/parser.rs. -/
def parse_relational : ℕ → List Token → PResult
  | 0, _ => .fuelOut
  | f + 1, ts =>
    match parse_addsub f ts with
    | .ok left rest => relationalLoop f left rest
    | r => r

/-- The operator loop of `parse_equality` in src/parser.rs. -/
def equalityLoop : ℕ → Expression → List Token → PResult
  | 0, _, _ => .fuelOut
  | f + 1, left, ts =>
    match ts with
    | t :: rest =>
      match t.kind with
      | .DoubleEqual =>
        match parse_relational f rest with
        | .ok right rest2 => equalityLoop f (.Equality left right) rest2
        | r => r
      | .ExclEqual =>
        match parse_relational f rest with
        | .ok right rest2 => equalityLoop f (.Inequality left right) rest2
        | r => r
      | _ => .ok left ts
    | [] => .ok left []

/-- `parse_equality` from src/parser.rs. -/
def parse_equality : ℕ → List Token → PResult
  | 0, _ => .fuelOut
  | f + 1, ts =>
    match parse_relational f ts with
    | .ok left rest => equalityLoop f left rest
    | r => r

/-- The operator loop of `parse_logical_and` in src/parser.rs. -/
def logicalAndLoop : ℕ → Expression → List Token → PResult
  | 0, _, _ => .fuelOut
  | f + 1, left, ts =>
    match ts with
    | t :: rest =>
      if t.kind = .DoubleAnd then
        match parse_equality f rest with
        | .ok right rest2 => logicalAndLoop f (.LogicalAnd left right) rest2
        | r => r
      else .ok left ts
    | [] => .ok left []

/-- `parse_logical_and` from src/parser.rs. -/
def parse_logical_and : ℕ → List Token → PResult
  | 0, _ => .fuelOut
  | f + 1, ts =>
    match parse_equality f ts with
    | .ok left rest => logicalAndLoop f left rest
    | r => r

/-- The operator loop of `parse_logical_or` in src/parser.rs. -/
def logicalOrLoop : ℕ → Expression → List Token → PResult
  | 0, _, _ => .fuelOut
  | f + 1, left, ts =>
    match ts with
    | t :: rest =>
      if t.kind = .DoublePipe then
        match parse_logical_and f rest with
        | .ok right rest2 => logicalOrLoop f (.LogicalOr left right) rest2
        | r => r
      else .ok left ts
    | [] => .ok left []

/-- `parse_logical_or` from src/parser.rs. -/
def parse_logical_or : ℕ → List Token → PResult
  | 0, _ => .fuelOut
  | f + 1, ts =>
    match parse_logical_and f ts with
    | .ok left rest => logicalOrLoop f left rest
    | r => r

/-- `parse_assignment` from src/parser.rs: right-associative by recursing
into itself for the right-hand side.  This is the body of the public
`parse_expression` entry point. -/
def parse_assignment : ℕ → List Token → PResult
  | 0, _ => .fuelOut
  | f + 1, ts =>
    match parse_logical_or f ts with
    | .ok left rest =>
      match rest with
      | t :: rest2 =>
        if t.kind = .SingleEqual then
          match parse_assignment f rest2 with
          | .ok right rest3 => .ok (.Assignment left right) rest3
          | r => r
        else .ok left rest
      | [] => .ok left []
    | r => r

end

/-- `parse_expression` from src/parser.rs: the public entry point, an
alias for `parse_assignment`.  The fuel bounds the call depth; between two
consecutive token pops the call chain descends through at most the eleven
tiers, so `12 * (length + 1)` strictly exceeds the depth any run can
reach, and the result is never `fuelOut`. -/
def parse_expression (tokens : List Token) : PResult :=
  parse_assignment (12 * (tokens.length + 1)) tokens


/-! ### Helper lemmas about digit runs -/

lemma read_numchars_append (ds rest : List Char)
    (h1 : ∀ c ∈ ds, c.isDigit = true)
    (h2 : ∀ c ∈ rest.take 1, c.isDigit = false) :
    read_numchars (ds ++ rest) = (ds, rest) := by
  induction ds with
  | nil =>
    cases rest with
    | nil => rfl
    | cons c r =>
      have hc : c.isDigit = false := h2 c (by simp)
      simp [read_numchars, hc]
  | cons d ds ih =>
    have hd : d.isDigit = true := h1 d (List.mem_cons_self d ds)
    have ih2 := ih (fun c hc => h1 c (List.mem_cons_of_mem _ hc))
    simp only [read_numchars, Prod.mk.injEq] at ih2 ⊢
    simp [List.takeWhile_cons, List.dropWhile_cons, hd, ih2.1, ih2.2]

lemma ratOfDecimal_digits (d : Char) (ds : List Char)
    (h1 : ∀ c ∈ d :: ds, c.isDigit = true) :
    ratOfDecimal (d :: ds) = some ((decDigitsVal (d :: ds) : ℕ) : ℚ) := by
  have h := read_numchars_append (d :: ds) [] h1 (by simp)
  simp only [List.append_nil] at h
  simp [ratOfDecimal, h]

lemma ratOfDecimal_int_exp (d e1 : Char) (ds es : List Char)
    (hm : ∀ c ∈ d :: ds, c.isDigit = true)
    (he : ∀ c ∈ e1 :: es, c.isDigit = true) :
    ratOfDecimal ((d :: ds) ++ 'e' :: e1 :: es) =
      some ((decDigitsVal (d :: ds) * 10 ^ decDigitsVal (e1 :: es) : ℕ) : ℚ) := by
  have h := read_numchars_append (d :: ds) ('e' :: e1 :: es) hm
    (by intro c hc; simp at hc; subst hc; decide)
  have h5 := read_numchars_append (e1 :: es) [] he (by simp)
  simp only [List.append_nil] at h5
  simp only [List.cons_append] at h ⊢
  simp [ratOfDecimal, h, h5]

lemma ratOfDecimal_frac (d f1 : Char) (ds fs : List Char)
    (hm : ∀ c ∈ d :: ds, c.isDigit = true)
    (hf : ∀ c ∈ f1 :: fs, c.isDigit = true) :
    ratOfDecimal ((d :: ds) ++ '.' :: (f1 :: fs)) =
      some ((decDigitsVal (d :: ds) : ℚ) +
        (decDigitsVal (f1 :: fs) : ℚ) / (10 : ℚ) ^ (f1 :: fs).length) := by
  have h := read_numchars_append (d :: ds) ('.' :: (f1 :: fs)) hm
    (by intro c hc; simp at hc; subst hc; decide)
  have h2 := read_numchars_append (f1 :: fs) [] hf (by simp)
  simp only [List.append_nil] at h2
  simp only [List.cons_append] at h ⊢
  simp [ratOfDecimal, h, h2]

lemma ratOfDecimal_frac_exp (d f1 e1 : Char) (ds fs es : List Char)
    (hm : ∀ c ∈ d :: ds, c.isDigit = true)
    (hf : ∀ c ∈ f1 :: fs, c.isDigit = true)
    (he : ∀ c ∈ e1 :: es, c.isDigit = true) :
    ratOfDecimal ((d :: ds) ++ '.' :: (f1 :: fs) ++ 'e' :: (e1 :: es)) =
      some (((decDigitsVal (d :: ds) : ℚ) +
        (decDigitsVal (f1 :: fs) : ℚ) / (10 : ℚ) ^ (f1 :: fs).length) *
        (10 : ℚ) ^ decDigitsVal (e1 :: es)) := by
  have h := read_numchars_append (d :: ds) ('.' :: (f1 :: fs) ++ 'e' :: (e1 :: es)) hm
    (by intro c hc; simp at hc; subst hc; decide)
  have h2 := read_numchars_append (f1 :: fs) ('e' :: (e1 :: es)) hf
    (by intro c hc; simp at hc; subst hc; decide)
  have h3 := read_numchars_append (e1 :: es) [] he (by simp)
  simp only [List.append_nil] at h3
  simp only [List.cons_append, List.append_assoc] at h h2 ⊢
  simp [ratOfDecimal, h, h2, h3]

lemma intWithPrefixLoop_spec (radix : ℕ) (ds rest : List Char) (v l : ℕ)
    (h1 : ∀ c ∈ ds, char_is_digit c radix = true)
    (h2 : ∀ c ∈ rest.take 1, char_is_digit c radix = false) :
    intWithPrefixLoop radix (ds ++ rest) v l =
      (ds.foldl (fun a c => a * radix + (to_digit c radix).getD 0) v, l + ds.length, rest) := by
  induction ds generalizing v l with
  | nil =>
    cases rest with
    | nil => simp [intWithPrefixLoop]
    | cons c r =>
      have hc : char_is_digit c radix = false := h2 c (by simp)
      simp [intWithPrefixLoop, hc]
  | cons d ds ih =>
    have hd : char_is_digit d radix = true := h1 d (List.mem_cons_self d ds)
    have ih2 := ih (v * radix + (to_digit d radix).getD 0) (l + 1)
      (fun c hc => h1 c (List.mem_cons_of_mem _ hc))
    simp only [List.cons_append, intWithPrefixLoop, hd, if_true, List.foldl_cons,
      List.length_cons, List.append_eq]
    rw [ih2]
    refine Prod.ext rfl (Prod.ext ?_ rfl)
    simp
    omega

/-- The token kinds that can extend an already-parsed expression when they
appear as the next lookahead: the postfix forms (`.`, `(`), the binary
operators of each tier, and `=`.  Enumerated from the match arms of the
tier functions in src/parser.rs. -/
def extendsExprKind : TokenKind → Bool
  | .Dot | .LeftParen | .Asterisk | .Slash | .Percent | .Plus | .Minus
  | .LessThan | .LessThanEq | .GreaterThan | .GreaterThanEq
  | .DoubleEqual | .ExclEqual | .DoubleAnd | .DoublePipe | .SingleEqual => true
  | _ => false

/-- Whether a parse outcome is a syntax error (a Rust `Err`). -/
def PResult.isSyntaxError : PResult → Bool
  | .error _ _ => true
  | _ => false

lemma parse_assignment_number_stops (f : ℕ) (v : ℚ) (lv l1 c1 : ℕ) (t2 : Token)
    (more : List Token) (hf : 11 ≤ f) (h : extendsExprKind t2.kind = false) :
    parse_assignment f (⟨.NumLiteral v lv, l1, c1⟩ :: t2 :: more) =
      .ok (.NumberValue v) (t2 :: more) := by
  obtain ⟨f0, rfl⟩ : ∃ f0, f = f0 + 11 := ⟨f - 11, by omega⟩
  obtain ⟨k, l2, c2⟩ := t2
  cases k <;> first | rfl | simp [extendsExprKind] at h

/-! ### Claim theorems -/

/-- C1: the claim says `&&` emits the logical-and kind and consumes exactly
two characters, `||` likewise for logical-or.  The code instead pushes
`DoublePipe` for `&&` and `DoubleAnd` for `||` (the kinds are swapped) and
additionally consumes one extra character after the pair (`b` and `y`
vanish below); only the single-`&`/single-`|` error half of the claim
holds. -/
theorem amp_pipe_tokens_swapped_and_overconsumed :
    parse "a&&b".toList = .ok [⟨.Identifier ['a'], 1, 1⟩, ⟨.DoublePipe, 1, 2⟩] ∧
    parse "x||y".toList = .ok [⟨.Identifier ['x'], 1, 1⟩, ⟨.DoubleAnd, 1, 2⟩] ∧
    parse "&x".toList = .err [] 1 1 (.InvalidCharacter '&') ∧
    parse "|x".toList = .err [] 1 1 (.InvalidCharacter '|') := by decide

/-- C2: the claim says every token's recorded source length equals the
number of characters consumed for it.  Tokenizing `&&+` succeeds with the
single token `DoublePipe` whose recorded length is 2, yet all 3 input
characters were consumed for it (no other token and no whitespace), so the
invariant fails. -/
theorem token_length_consumption_mismatch :
    parse "&&+".toList = .ok [⟨.DoublePipe, 1, 1⟩] ∧
    TokenKind.DoublePipe.get_str_len = 2 ∧ ("&&+".toList).length = 3 := by decide

/-- C3: the claim says end-of-input before a closing quote fails with
UnterminatedStringLiteral, like a literal newline does.  The code only
errors on the newline; at end of input the scanning loop falls through and
the token is emitted as if the quote had been closed (a closing quote is
even synthesized into the token text). -/
theorem eof_unterminated_string_accepted :
    parse ['"', 'a', 'b'] = .ok [⟨.StrLiteral ['"', 'a', 'b', '"'], 1, 1⟩] ∧
    parse ['"', 'a', 'b', '\n', '"'] = .err [] 1 1 .UnterminatedStringLiteral := by decide

/-- C4: the claim says a grouped expression missing its `)` (the tokens of
`(1 + 2`) yields a syntax error naming `)`.  The code pops the closing
token unconditionally (`pop_front().unwrap()`), which on the empty deque
panics instead; the error branch is only reachable when a non-`)` token
remains (second conjunct). -/
theorem unterminated_group_panics :
    parse_expression [⟨.LeftParen, 1, 1⟩, ⟨.NumLiteral 1 1, 1, 2⟩, ⟨.Plus, 1, 4⟩,
        ⟨.NumLiteral 2 1, 1, 6⟩] = .panicked ∧
    parse_expression [⟨.LeftParen, 1, 1⟩, ⟨.NumLiteral 1 1, 1, 2⟩, ⟨.Plus, 1, 4⟩,
        ⟨.NumLiteral 2 1, 1, 6⟩, ⟨.SemiColon, 1, 7⟩] =
      .error (.ExpectedRParenButFound .SemiColon) [] := ⟨rfl, rfl⟩

/-- C7 counterexample: the claim says a trailing comma (`f(1,)`) is a
syntax error; the parser in fact accepts it, returning the call with one
argument and no error. -/
theorem trailing_comma_not_rejected :
    (parse_expression [⟨.Identifier ['f'], 1, 1⟩, ⟨.LeftParen, 1, 2⟩, ⟨.NumLiteral 1 1, 1, 3⟩,
        ⟨.Comma, 1, 4⟩, ⟨.RightParen, 1, 5⟩]).isSyntaxError = false ∧
    parse_expression [⟨.Identifier ['f'], 1, 1⟩, ⟨.LeftParen, 1, 2⟩, ⟨.NumLiteral 1 1, 1, 3⟩,
        ⟨.Comma, 1, 4⟩, ⟨.RightParen, 1, 5⟩] =
      .ok (.FunctionCall (.Variable ['f']) [.NumberValue 1]) [] := ⟨rfl, rfl⟩

/-- C7 amended: a comma immediately followed by `)` in a call argument
list is accepted; `f(1,)` parses as a call with the single argument, for
any identifier, numeric payload and token positions. -/
theorem trailing_comma_call_accepted (s : List Char) (v : ℚ)
    (lv a1 b1 a2 b2 a3 b3 a4 b4 a5 b5 : ℕ) :
    parse_expression [⟨.Identifier s, a1, b1⟩, ⟨.LeftParen, a2, b2⟩, ⟨.NumLiteral v lv, a3, b3⟩,
        ⟨.Comma, a4, b4⟩, ⟨.RightParen, a5, b5⟩] =
      .ok (.FunctionCall (.Variable s) [.NumberValue v]) [] := rfl

/-- C9: for any three number tokens, `<number> + <number> * <number>`
parses as Addition(left, Multiplication(mid, right)): the multiplicative
tier binds tighter and supplies the additive right operand. -/
theorem addition_multiplication_precedence (a b c : ℚ)
    (la lb lc l1 c1 l2 c2 l3 c3 l4 c4 l5 c5 : ℕ) :
    parse_expression [⟨.NumLiteral a la, l1, c1⟩, ⟨.Plus, l2, c2⟩, ⟨.NumLiteral b lb, l3, c3⟩,
        ⟨.Asterisk, l4, c4⟩, ⟨.NumLiteral c lc, l5, c5⟩] =
      .ok (.Addition (.NumberValue a) (.Multiplication (.NumberValue b) (.NumberValue c))) [] := rfl

/-- C10: a complete leading expression (a number token) followed by any
token that no tier's lookahead matches is parsed successfully; the result
is built from the leading token only and every remaining token — the
non-extending token and everything after it — is left unconsumed. -/
theorem trailing_tokens_left_unconsumed (v : ℚ) (lv l1 c1 : ℕ) (t2 : Token)
    (more : List Token) (h : extendsExprKind t2.kind = false) :
    parse_expression (⟨.NumLiteral v lv, l1, c1⟩ :: t2 :: more) =
      .ok (.NumberValue v) (t2 :: more) := by
  have hh := parse_assignment_number_stops
    (12 * ((⟨.NumLiteral v lv, l1, c1⟩ :: t2 :: more).length + 1)) v lv l1 c1 t2 more
    (by simp only [List.length_cons]; omega) h
  simpa [parse_expression] using hh

/-- Witness for C10 at the tokens of `1 2`-style input with `;` following. -/
theorem trailing_tokens_left_unconsumed_witness :
    extendsExprKind TokenKind.SemiColon = false ∧
    parse_expression [⟨.NumLiteral 1 1, 1, 1⟩, ⟨.SemiColon, 1, 3⟩] =
      .ok (.NumberValue 1) [⟨.SemiColon, 1, 3⟩] :=
  ⟨by decide, trailing_tokens_left_unconsumed 1 1 1 1 ⟨.SemiColon, 1, 3⟩ [] (by decide)⟩

lemma char_isDigit_of_range (c : Char) (h1 : '1' ≤ c) (h2 : c ≤ '9') : c.isDigit = true := by
  have h0 : '0' ≤ c := le_trans (by decide) h1
  simp only [Char.isDigit, Bool.and_eq_true, decide_eq_true_eq, ge_iff_le]
  exact ⟨h0, h2⟩

lemma char_isDigit_of_range0 (c : Char) (h1 : '0' ≤ c) (h2 : c ≤ '9') : c.isDigit = true := by
  simp only [Char.isDigit, Bool.and_eq_true, decide_eq_true_eq, ge_iff_le]
  exact ⟨h1, h2⟩

/-- C5 counterexample: the claim predicts that `0xA1` (prefix followed by
the non-empty hex-digit run `A1`) tokenizes to a single Number token of
value 161 and length 4.  The code's entry guard only accepts a *decimal*
digit directly after the prefix, so `0xA1` instead yields Number 0 of
length 1 with the prefix left unconsumed, followed by the identifier
`xA1`. -/
theorem radix_run_claim_cex :
    parse "0xA1".toList = .ok [⟨.NumLiteral 0 1, 1, 1⟩, ⟨.Identifier ['x', 'A', '1'], 1, 2⟩] ∧
    parse "0xA1".toList ≠ .ok [⟨.NumLiteral 161 4, 1, 1⟩] := by decide

/-- C5 amended: when the first character after the radix prefix is a
*decimal* digit, the maximal radix-digit run is accumulated digit-by-digit
in the radix base and the consumed length is 2 plus the run length (the
claim as stated, restricted by the decimal-first-digit entry guard). -/
theorem radix_run_requires_decimal_first_digit (radix : ℕ) (p d : Char) (ds rest : List Char)
    (h1 : '0' ≤ d ∧ d ≤ '9')
    (h2 : ∀ c ∈ d :: ds, char_is_digit c radix = true)
    (h3 : ∀ c ∈ rest.take 1, char_is_digit c radix = false) :
    parse_int_with_prefix (p :: ((d :: ds) ++ rest)) 2 radix =
      (.NumLiteral (((d :: ds).foldl (fun a c => a * radix + (to_digit c radix).getD 0) 0 : ℕ) : ℚ)
        (2 + (d :: ds).length), rest) := by
  have hloop := intWithPrefixLoop_spec radix (d :: ds) rest 0 2 h2 h3
  simp only [ parse_int_with_prefix, List.cons_append, List.getElem?_cons_succ,
    List.getElem?_cons_zero, List.tail_cons]
  rw [if_pos h1]
  simp only [List.cons_append] at hloop
  rw [hloop]

/-- Witness for C5 at `x` + `1A` (the `0x1A` example): the hypotheses hold
and the run accumulates to 26 with consumed length 4. -/
theorem radix_run_requires_decimal_first_digit_witness :
    parse_int_with_prefix ('x' :: (('1' :: ['A']) ++ [])) 2 16 =
      (.NumLiteral ((('1' :: ['A']).foldl (fun a c => a * 16 + (to_digit c 16).getD 0) 0 : ℕ) : ℚ)
        (2 + ('1' :: ['A']).length), []) ∧
    (('1' :: ['A']).foldl (fun a c => a * 16 + (to_digit c 16).getD 0) 0 : ℕ) = 26 :=
  ⟨radix_run_requires_decimal_first_digit 16 'x' '1' ['A'] []
    (by decide) (by decide) (by decide), by decide⟩

/-- C6 counterexample: the claim predicts that a bare `0x` succeeds with
value 0 and consumed length 2, the prefix consumed.  The code returns
length 1 and does *not* consume the prefix: `0x` tokenizes as Number 0 of
length 1 followed by the identifier `x`. -/
theorem zero_digit_radix_claim_cex :
    parse "0x".toList = .ok [⟨.NumLiteral 0 1, 1, 1⟩, ⟨.Identifier ['x'], 1, 2⟩] ∧
    parse "0x".toList ≠ .ok [⟨.NumLiteral 0 2, 1, 1⟩] := by decide

/-- C6 amended: a radix literal with zero radix digits after its prefix
still succeeds with value 0, but the outcome splits on the character after
the prefix: if it is not a decimal digit (or the input ends, as in a bare
`0x`), the length is 1 and the prefix is left unconsumed; if it is a
decimal digit that is not a digit of the radix (as in `0b9`), the length
is 2 and the prefix is consumed. -/
theorem zero_digit_radix_behavior :
    (∀ (radix : ℕ) (p : Char) (rest : List Char),
        (∀ c ∈ rest.take 1, ¬('0' ≤ c ∧ c ≤ '9')) →
        parse_int_with_prefix (p :: rest) 2 radix = (.NumLiteral 0 1, p :: rest)) ∧
    (∀ (radix : ℕ) (p d : Char) (rest : List Char),
        ('0' ≤ d ∧ d ≤ '9') → char_is_digit d radix = false →
        parse_int_with_prefix (p :: d :: rest) 2 radix = (.NumLiteral 0 2, d :: rest)) := by
  constructor
  · intro radix p rest h
    cases rest with
    | nil => rfl
    | cons c r =>
      have hc := h c (by simp)
      simp only [ parse_int_with_prefix, List.getElem?_cons_succ, List.getElem?_cons_zero]
      rw [if_neg hc]
  · intro radix p d rest h1 h2
    simp only [ parse_int_with_prefix, List.getElem?_cons_succ, List.getElem?_cons_zero,
      List.tail_cons]
    rw [if_pos h1]
    simp [intWithPrefixLoop, h2]

/-- Witness for C6: both halves at concrete inputs — a bare `x` tail
(`0x`) and a `b` prefix followed by the non-binary digit `9` (`0b9`). -/
theorem zero_digit_radix_behavior_witness :
    parse_int_with_prefix ('x' :: []) 2 16 = (.NumLiteral 0 1, 'x' :: []) ∧
    parse_int_with_prefix ('b' :: '9' :: []) 2 2 = (.NumLiteral 0 2, '9' :: []) :=
  ⟨zero_digit_radix_behavior.1 16 'x' [] (by decide),
   zero_digit_radix_behavior.2 2 'b' '9' [] (by decide) (by decide)⟩

/-- C8 counterexample: the claim says an exponent marker followed by *any*
digit 0-9 is consumed.  The code's guard accepts only `1`-`9` after the
`e`, so `1e0` does not consume the `e`: it tokenizes as Number 1 of length
1 followed by the identifier `e0`, not as a single Number token of length
3. -/
theorem exponent_digit_zero_claim_cex :
    parse "1e0".toList = .ok [⟨.NumLiteral 1 1, 1, 1⟩, ⟨.Identifier ['e', '0'], 1, 2⟩] ∧
    parse "1e0".toList ≠ .ok [⟨.NumLiteral 1 3, 1, 1⟩] := by decide

/-- C8 amended: an exponent marker `e` is consumed — and its digit run
folded into the parsed value — exactly when the character after the `e`
is a digit `1`-`9`; when it is not (including the digit `0`), the `e` is
left unconsumed and the number token ends before it.  Stated for every
literal shape carrying one of the two exponent guards in the source:
integer and fractional mantissas in the nonzero-digit arm (src/lexer.rs
lines 196-202) and the `0.`-anchored fractional literals (src/lexer.rs
lines 115-121), each in both the consumed and the not-consumed case. -/
theorem exponent_requires_nonzero_digit :
    (∀ (c e1 : Char) (ds es rest : List Char),
        c.isDigit = true → (∀ x ∈ ds, x.isDigit = true) →
        ('1' ≤ e1 ∧ e1 ≤ '9') → (∀ x ∈ es, x.isDigit = true) →
        (∀ x ∈ rest.take 1, x.isDigit = false) →
        lexNumNonzero c (ds ++ 'e' :: e1 :: (es ++ rest)) =
          some (.NumLiteral ((decDigitsVal (c :: ds) * 10 ^ decDigitsVal (e1 :: es) : ℕ) : ℚ)
            (ds.length + es.length + 3), rest)) ∧
    (∀ (c : Char) (ds rest : List Char),
        c.isDigit = true → (∀ x ∈ ds, x.isDigit = true) →
        (∀ x ∈ rest.take 1, ¬('1' ≤ x ∧ x ≤ '9')) →
        lexNumNonzero c (ds ++ 'e' :: rest) =
          some (.NumLiteral ((decDigitsVal (c :: ds) : ℕ) : ℚ) (ds.length + 1), 'e' :: rest)) ∧
    (∀ (c f1 e1 : Char) (ds fs es rest : List Char),
        c.isDigit = true → (∀ x ∈ ds, x.isDigit = true) →
        ('0' ≤ f1 ∧ f1 ≤ '9') → (∀ x ∈ fs, x.isDigit = true) →
        ('1' ≤ e1 ∧ e1 ≤ '9') → (∀ x ∈ es, x.isDigit = true) →
        (∀ x ∈ rest.take 1, x.isDigit = false) →
        lexNumNonzero c (ds ++ '.' :: f1 :: (fs ++ 'e' :: e1 :: (es ++ rest))) =
          some (.NumLiteral
            (((decDigitsVal (c :: ds) : ℚ) +
              (decDigitsVal (f1 :: fs) : ℚ) / (10 : ℚ) ^ (f1 :: fs).length) *
              (10 : ℚ) ^ decDigitsVal (e1 :: es))
            (ds.length + fs.length + es.length + 5), rest)) ∧
    (∀ (c f1 : Char) (ds fs rest : List Char),
        c.isDigit = true → (∀ x ∈ ds, x.isDigit = true) →
        ('0' ≤ f1 ∧ f1 ≤ '9') → (∀ x ∈ fs, x.isDigit = true) →
        (∀ x ∈ rest.take 1, ¬('1' ≤ x ∧ x ≤ '9')) →
        lexNumNonzero c (ds ++ '.' :: f1 :: (fs ++ 'e' :: rest)) =
          some (.NumLiteral
            ((decDigitsVal (c :: ds) : ℚ) +
              (decDigitsVal (f1 :: fs) : ℚ) / (10 : ℚ) ^ (f1 :: fs).length)
            (ds.length + fs.length + 3), 'e' :: rest)) ∧
    (∀ (f1 e1 : Char) (fs es rest : List Char),
        ('0' ≤ f1 ∧ f1 ≤ '9') → (∀ x ∈ fs, x.isDigit = true) →
        ('1' ≤ e1 ∧ e1 ≤ '9') → (∀ x ∈ es, x.isDigit = true) →
        (∀ x ∈ rest.take 1, x.isDigit = false) →
        parse_number_starting_with_0 ('.' :: f1 :: (fs ++ 'e' :: e1 :: (es ++ rest))) =
          some (.NumLiteral
            (((decDigitsVal ['0'] : ℚ) +
              (decDigitsVal (f1 :: fs) : ℚ) / (10 : ℚ) ^ (f1 :: fs).length) *
              (10 : ℚ) ^ decDigitsVal (e1 :: es))
            (fs.length + es.length + 5), rest)) ∧
    (∀ (f1 : Char) (fs rest : List Char),
        ('0' ≤ f1 ∧ f1 ≤ '9') → (∀ x ∈ fs, x.isDigit = true) →
        (∀ x ∈ rest.take 1, ¬('1' ≤ x ∧ x ≤ '9')) →
        parse_number_starting_with_0 ('.' :: f1 :: (fs ++ 'e' :: rest)) =
          some (.NumLiteral
            ((decDigitsVal ['0'] : ℚ) +
              (decDigitsVal (f1 :: fs) : ℚ) / (10 : ℚ) ^ (f1 :: fs).length)
            (fs.length + 3), 'e' :: rest)) := by
  refine ⟨?_, ?_, ?_, ?_, ?_, ?_⟩
  · intro c e1 ds es rest hc hds he1 hes hrest
    have he1d : e1.isDigit = true := char_isDigit_of_range e1 he1.1 he1.2
    have h := read_numchars_append ds ('e' :: e1 :: (es ++ rest)) hds
      (by intro x hx; simp at hx; subst hx; decide)
    have h2 := read_numchars_append (e1 :: es) rest
      (List.forall_mem_cons.mpr ⟨he1d, hes⟩) hrest
    have hr := ratOfDecimal_int_exp c e1 ds es
      (List.forall_mem_cons.mpr ⟨hc, hds⟩)
      (List.forall_mem_cons.mpr ⟨he1d, hes⟩)
    simp only [List.cons_append] at h2 hr
    simp [lexNumNonzero, h, h2, he1, try_into_float, hr]
    omega
  · intro c ds rest hc hds hrest
    have h := read_numchars_append ds ('e' :: rest) hds
      (by intro x hx; simp at hx; subst hx; decide)
    have hr := ratOfDecimal_digits c ds (List.forall_mem_cons.mpr ⟨hc, hds⟩)
    cases rest with
    | nil => simp [lexNumNonzero, h, try_into_float, hr]
    | cons r0 rs =>
      have hr0 := hrest r0 (by simp)
      simp [lexNumNonzero, h, try_into_float, hr, hr0]
  · intro c f1 e1 ds fs es rest hc hds hf1 hfs he1 hes hrest
    have hf1d : f1.isDigit = true := char_isDigit_of_range0 f1 hf1.1 hf1.2
    have he1d : e1.isDigit = true := char_isDigit_of_range e1 he1.1 he1.2
    have h := read_numchars_append ds ('.' :: f1 :: (fs ++ 'e' :: e1 :: (es ++ rest))) hds
      (by intro x hx; simp at hx; subst hx; decide)
    have h2 := read_numchars_append (f1 :: fs) ('e' :: e1 :: (es ++ rest))
      (List.forall_mem_cons.mpr ⟨hf1d, hfs⟩)
      (by intro x hx; simp at hx; subst hx; decide)
    have h3 := read_numchars_append (e1 :: es) rest
      (List.forall_mem_cons.mpr ⟨he1d, hes⟩) hrest
    have hr := ratOfDecimal_frac_exp c f1 e1 ds fs es
      (List.forall_mem_cons.mpr ⟨hc, hds⟩)
      (List.forall_mem_cons.mpr ⟨hf1d, hfs⟩)
      (List.forall_mem_cons.mpr ⟨he1d, hes⟩)
    simp only [List.cons_append, List.append_assoc] at h2 h3 hr
    simp [lexNumNonzero, h, h2, h3, hf1, he1, try_into_float, hr]
    omega
  · intro c f1 ds fs rest hc hds hf1 hfs hrest
    have hf1d : f1.isDigit = true := char_isDigit_of_range0 f1 hf1.1 hf1.2
    have h := read_numchars_append ds ('.' :: f1 :: (fs ++ 'e' :: rest)) hds
      (by intro x hx; simp at hx; subst hx; decide)
    have h2 := read_numchars_append (f1 :: fs) ('e' :: rest)
      (List.forall_mem_cons.mpr ⟨hf1d, hfs⟩)
      (by intro x hx; simp at hx; subst hx; decide)
    have hr := ratOfDecimal_frac c f1 ds fs
      (List.forall_mem_cons.mpr ⟨hc, hds⟩)
      (List.forall_mem_cons.mpr ⟨hf1d, hfs⟩)
    simp only [List.cons_append] at h2 hr
    cases rest with
    | nil =>
      simp [lexNumNonzero, h, h2, hf1, try_into_float, hr]
      omega
    | cons r0 rs =>
      have hr0 := hrest r0 (by simp)
      simp [lexNumNonzero, h, h2, hf1, hr0, try_into_float, hr]
      omega
  · intro f1 e1 fs es rest hf1 hfs he1 hes hrest
    have hf1d : f1.isDigit = true := char_isDigit_of_range0 f1 hf1.1 hf1.2
    have he1d : e1.isDigit = true := char_isDigit_of_range e1 he1.1 he1.2
    have h2 := read_numchars_append (f1 :: fs) ('e' :: e1 :: (es ++ rest))
      (List.forall_mem_cons.mpr ⟨hf1d, hfs⟩)
      (by intro x hx; simp at hx; subst hx; decide)
    have h3 := read_numchars_append (e1 :: es) rest
      (List.forall_mem_cons.mpr ⟨he1d, hes⟩) hrest
    have hr := ratOfDecimal_frac_exp '0' f1 e1 [] fs es
      (by intro x hx; simp at hx; subst hx; decide)
      (List.forall_mem_cons.mpr ⟨hf1d, hfs⟩)
      (List.forall_mem_cons.mpr ⟨he1d, hes⟩)
    simp only [List.cons_append, List.append_assoc, List.nil_append] at h2 h3 hr
    simp [parse_number_starting_with_0, h2, h3, hf1, he1, try_into_float, hr]
    omega
  · intro f1 fs rest hf1 hfs hrest
    have hf1d : f1.isDigit = true := char_isDigit_of_range0 f1 hf1.1 hf1.2
    have h2 := read_numchars_append (f1 :: fs) ('e' :: rest)
      (List.forall_mem_cons.mpr ⟨hf1d, hfs⟩)
      (by intro x hx; simp at hx; subst hx; decide)
    have hr := ratOfDecimal_frac '0' f1 [] fs
      (by intro x hx; simp at hx; subst hx; decide)
      (List.forall_mem_cons.mpr ⟨hf1d, hfs⟩)
    simp only [List.cons_append, List.nil_append] at h2 hr
    cases rest with
    | nil =>
      simp [parse_number_starting_with_0, h2, hf1, try_into_float, hr]
    | cons r0 rs =>
      have hr0 := hrest r0 (by simp)
      simp [parse_number_starting_with_0, h2, hf1, hr0, try_into_float, hr]

/-- Witness for C8, one concrete instance per conjunct: the tails of
`1e10` and `1e0` (integer mantissa, exponent consumed / not consumed), of
`1.5e2` and `1.5e0` (fractional mantissa), and of `0.5e2` and `0.5e0`
(the `0.`-anchored arm); the digit-run values evaluate to 1, 5, 2 and
10^10. -/
theorem exponent_requires_nonzero_digit_witness :
    lexNumNonzero '1' ([] ++ 'e' :: '1' :: (['0'] ++ [])) =
      some (.NumLiteral ((decDigitsVal ['1'] * 10 ^ decDigitsVal ['1', '0'] : ℕ) : ℚ)
        (List.length ([] : List Char) + List.length ['0'] + 3), []) ∧
    (decDigitsVal ['1'] * 10 ^ decDigitsVal ['1', '0'] : ℕ) = 10000000000 ∧
    lexNumNonzero '1' ([] ++ 'e' :: ['0']) =
      some (.NumLiteral ((decDigitsVal ['1'] : ℕ) : ℚ)
        (List.length ([] : List Char) + 1), 'e' :: ['0']) ∧
    lexNumNonzero '1' ([] ++ '.' :: '5' :: ([] ++ 'e' :: '2' :: ([] ++ []))) =
      some (.NumLiteral
        (((decDigitsVal ['1'] : ℚ) +
          (decDigitsVal ['5'] : ℚ) / (10 : ℚ) ^ (['5'] : List Char).length) *
          (10 : ℚ) ^ decDigitsVal ['2'])
        (List.length ([] : List Char) + List.length ([] : List Char) +
          List.length ([] : List Char) + 5), []) ∧
    lexNumNonzero '1' ([] ++ '.' :: '5' :: ([] ++ 'e' :: ['0'])) =
      some (.NumLiteral
        ((decDigitsVal ['1'] : ℚ) +
          (decDigitsVal ['5'] : ℚ) / (10 : ℚ) ^ (['5'] : List Char).length)
        (List.length ([] : List Char) + List.length ([] : List Char) + 3), 'e' :: ['0']) ∧
    parse_number_starting_with_0 ('.' :: '5' :: ([] ++ 'e' :: '2' :: ([] ++ []))) =
      some (.NumLiteral
        (((decDigitsVal ['0'] : ℚ) +
          (decDigitsVal ['5'] : ℚ) / (10 : ℚ) ^ (['5'] : List Char).length) *
          (10 : ℚ) ^ decDigitsVal ['2'])
        (List.length ([] : List Char) + List.length ([] : List Char) + 5), []) ∧
    parse_number_starting_with_0 ('.' :: '5' :: ([] ++ 'e' :: ['0'])) =
      some (.NumLiteral
        ((decDigitsVal ['0'] : ℚ) +
          (decDigitsVal ['5'] : ℚ) / (10 : ℚ) ^ (['5'] : List Char).length)
        (List.length ([] : List Char) + 3), 'e' :: ['0']) ∧
    decDigitsVal ['0'] = 0 ∧ decDigitsVal ['1'] = 1 ∧ decDigitsVal ['5'] = 5 ∧
    decDigitsVal ['2'] = 2 :=
  ⟨exponent_requires_nonzero_digit.1 '1' '1' [] ['0'] []
      (by decide) (by decide) (by decide) (by decide) (by decide),
   by decide,
   exponent_requires_nonzero_digit.2.1 '1' [] ['0']
      (by decide) (by decide) (by decide),
   exponent_requires_nonzero_digit.2.2.1 '1' '5' '2' [] [] [] []
      (by decide) (by decide) (by decide) (by decide) (by decide) (by decide) (by decide),
   exponent_requires_nonzero_digit.2.2.2.1 '1' '5' [] [] ['0']
      (by decide) (by decide) (by decide) (by decide) (by decide),
   exponent_requires_nonzero_digit.2.2.2.2.1 '5' '2' [] [] []
      (by decide) (by decide) (by decide) (by decide) (by decide),
   exponent_requires_nonzero_digit.2.2.2.2.2 '5' [] ['0']
      (by decide) (by decide) (by decide),
   by decide, by decide, by decide, by decide⟩
